import Mathlib

/-!
Shallow embedding of `src/run.ts` of the `setup-helm` action.

The program resolves a requested Helm version token to a concrete version
string (possibly consulting a remote release listing), downloads and caches
the matching archive, locates the executable inside the cache directory and
publishes its path.  External effects (network fetches, the filesystem walk,
the tool cache) are modelled as explicit parameters: a failed fetch is `none`,
a successful fetch carries the parsed payload.
-/

namespace SetupHelm

/-! ### JavaScript string operations

`String.prototype.startsWith`, `indexOf(..) == -1` (substring containment)
and `toLocaleLowerCase` are modelled on the character list of the string. -/

/-- Model of `pat` being a leading segment of `l` (JS `startsWith` on char lists). -/
def leadsWith : List Char → List Char → Bool
  | [], _ => true
  | _ :: _, [] => false
  | p :: ps, c :: cs => p == c && leadsWith ps cs

/-- Model of JS `s.startsWith(pat)`. -/
def strStartsWith (s pat : String) : Bool :=
  leadsWith pat.data s.data

/-- Model of `pat` occurring as a contiguous run inside `l`. -/
def hasSub (pat : List Char) : List Char → Bool
  | [] => leadsWith pat []
  | c :: cs => leadsWith pat (c :: cs) || hasSub pat cs

/-- Model of JS `s.indexOf(pat) != -1`: `pat` occurs somewhere in `s`. -/
def strContains (s pat : String) : Bool :=
  hasSub pat.data s.data

/-- Model of JS `s.toLocaleLowerCase()` (ASCII lowering, as in the default locale). -/
def strLower (s : String) : String :=
  String.mk (s.data.map Char.toLower)

/-! ### Constants and platform dispatch (`run.ts` lines 15-42) -/

def helmToolName : String := "helm"
def stableHelmVersion : String := "v3.2.1"
def stableHelm3Version : String := "v3.5.3"
def stableHelm2Version : String := "v2.17.0"
def LATEST_HELM2_VERSION : String := "2.*"
def LATEST_HELM3_VERSION : String := "3.*"

/-- Result of `os.type()`: the three recognized platforms plus any other value
that does not start with "Win" (the source tests `os.type().match(/^Win/)`). -/
inductive OSType
  | Linux
  | Darwin
  | WindowsNT
  | Other
deriving DecidableEq

/-- `getExecutableExtension`: ".exe" exactly when `os.type()` starts with "Win". -/
def getExecutableExtension (os : OSType) : String :=
  match os with
  | .WindowsNT => ".exe"
  | _ => ""

/-- `getHelmDownloadURL`: the `switch (os.type())` with `Windows_NT` and the
`default` branch sharing the windows URL. -/
def getHelmDownloadURL (os : OSType) (version : String) : String :=
  match os with
  | .Linux => "https://get.helm.sh/helm-" ++ version ++ "-linux-amd64.zip"
  | .Darwin => "https://get.helm.sh/helm-" ++ version ++ "-darwin-amd64.zip"
  | _ => "https://get.helm.sh/helm-" ++ version ++ "-windows-amd64.zip"

/-! ### Model of the `semver` npm library (`clean` and `gt`)

`getStableHelmVersion` uses `semver.clean` (strict parse after trimming and
stripping leading `v`/`=` characters; build metadata dropped from the cleaned
form) and `semver.gt` (semantic-version precedence).  Precedence is expressed
through an order-preserving key into nested lexicographic orders, so that
transitivity comes from the `LinearOrder` instances. -/

/-- Numeric identifier of strict semver: nonempty, digits only, no leading zero. -/
def parseNumId (l : List Char) : Option Nat :=
  if l.isEmpty then none
  else if l.all Char.isDigit then
    if l.length > 1 && l.head? == some '0' then none
    else some (l.foldl (fun n c => n * 10 + (c.toNat - 48)) 0)
  else none

/-- Split a character list at the first occurrence of `sep`; the second
component is `none` when `sep` does not occur. -/
def splitAtFirst (sep : Char) : List Char → List Char × Option (List Char)
  | [] => ([], none)
  | c :: cs =>
    if c = sep then ([], some cs)
    else
      let r := splitAtFirst sep cs
      (c :: r.1, r.2)

/-- Characters allowed in semver pre-release / build identifiers. -/
def validIdChar (c : Char) : Bool :=
  c.isAlphanum || c == '-'

/-- Build-metadata identifier: nonempty, allowed characters. -/
def validId (s : String) : Bool :=
  !s.data.isEmpty && s.data.all validIdChar

/-- Pre-release identifier: nonempty, allowed characters, and when purely
numeric it must have no leading zero. -/
def validPreId (s : String) : Bool :=
  !s.data.isEmpty && s.data.all validIdChar &&
    (!(s.data.all Char.isDigit) || (parseNumId s.data).isSome)

/-- A parsed semantic version; `pre` is the raw pre-release part (without the
leading dash) when present. -/
structure Semver where
  major : Nat
  minor : Nat
  patch : Nat
  pre : Option String
deriving DecidableEq

/-- Model of `semver.clean`: trim, strip leading `v`/`=`, then strict parse of
`major.minor.patch[-pre][+build]`; `none` on any malformation. -/
def semverClean (s : String) : Option Semver :=
  let t := (s.trim.data).dropWhile (fun c => c == 'v' || c == '=')
  let cb := splitAtFirst '+' t
  let buildOk := match cb.2 with
    | none => true
    | some b => ((String.mk b).splitOn ".").all validId
  let cp := splitAtFirst '-' cb.1
  match (String.mk cp.1).splitOn "." with
  | [ma, mi, pa] =>
    match parseNumId ma.data, parseNumId mi.data, parseNumId pa.data with
    | some M, some m, some p =>
      if buildOk then
        match cp.2 with
        | none => some ⟨M, m, p, none⟩
        | some pr =>
          if ((String.mk pr).splitOn ".").all validPreId then
            some ⟨M, m, p, some (String.mk pr)⟩
          else none
      else none
    | _, _, _ => none
  | _ => none

/-- The cleaned string form of a parsed version (what `semver.clean` returns). -/
def semverStr (v : Semver) : String :=
  toString v.major ++ "." ++ toString v.minor ++ "." ++ toString v.patch ++
    (match v.pre with
     | none => ""
     | some p => "-" ++ p)

/-- Precedence key of one pre-release identifier: numeric identifiers rank
below alphanumeric ones, numerics compare as numbers, alphanumerics
lexicographically. -/
def preIdKey (s : String) : Nat ⊕ₗ String :=
  match parseNumId s.data with
  | some n => toLex (Sum.inl n)
  | none => toLex (Sum.inr s)

/-- Precedence key of the pre-release part: absence ranks above any
pre-release (`⊤`), otherwise the lexicographic list of identifier keys. -/
def preKey : Option String → WithTop (List (Nat ⊕ₗ String))
  | none => ⊤
  | some p => some ((p.splitOn ".").map preIdKey)

/-- Total precedence key of a version. -/
def semKey (v : Semver) : Lex (Nat × Lex (Nat × Lex (Nat × WithTop (List (Nat ⊕ₗ String))))) :=
  toLex (v.major, toLex (v.minor, toLex (v.patch, preKey v.pre)))

/-- Model of `semver.gt a b`: `a` has strictly higher precedence than `b`. -/
def semverGtB (a b : Semver) : Bool :=
  decide (semKey b < semKey a)

/-- The seed of the running maximum: `semver.clean(stableHelmVersion)`. -/
def seedSemver : Semver := ⟨3, 2, 1, none⟩

/-- One `forEach` step of `getStableHelmVersion` (`run.ts` lines 49-59).  The
accumulator carries the JS string variable `latestHelmVersion` together with
its parsed form (so that `semver.gt`, which re-parses the strings, is the key
comparison of the parsed forms).  A `none` entry models a listing element that
is null or lacks `tag_name`. -/
def stableStep (acc : String × Semver) (entry : Option String) : String × Semver :=
  match entry with
  | none => acc
  | some tag =>
    match semverClean tag with
    | none => acc
    | some cur =>
      if !(strContains (semverStr cur) "rc") && semverGtB cur acc.2 then
        (semverStr cur, cur)
      else acc

/-- `getStableHelmVersion` (`run.ts` lines 44-67).  The REST fetch plus
`JSON.parse` is modelled by its outcome: `none` when it throws (the catch
branch returns the hardcoded `stableHelmVersion`), `some arr` when it yields
an array whose entries may lack `tag_name`. -/
def getStableHelmVersion (fetch : Option (List (Option String))) : String :=
  match fetch with
  | none => stableHelmVersion
  | some arr =>
    let final := arr.foldl stableStep (semverStr seedSemver, seedSemver)
    "v" ++ final.1

/-- `isValidVersion` (`run.ts` lines 148-152): the family check lowers the tag
first, the "rc" check runs on the original string. -/
def isValidVersion (version type : String) : Bool :=
  if !(strStartsWith (strLower version) type) then false
  else !(strContains version "rc")

/-- `getStableHelmVersionFor` (`run.ts` lines 143-145). -/
def getStableHelmVersionFor (type : String) : String :=
  if type = "v2" then stableHelm2Version else stableHelm3Version

/-- `getLatestHelmVersionFor` (`run.ts` lines 111-141).  The graphql call is
modelled by its outcome: `none` when the query throws (auth/transport error),
`some tags` when it returns the release tag names.  The catch branch and the
no-match branch both return the per-family default. -/
def getLatestHelmVersionFor (type : String) (fetch : Option (List String)) : String :=
  match fetch with
  | none => getStableHelmVersionFor type
  | some releases =>
    match releases.reverse.find? (fun r => isValidVersion r type) with
    | some tag => tag
    | none => getStableHelmVersionFor type

/-! ### Tool cache, filesystem and acquisition (`run.ts` lines 69-109, 154-164) -/

/-- Modelled from the spec: the `@actions/tool-cache` store is keyed by
`(toolName, version)`; a cached entry's directory is determined by its key. -/
abbrev CacheState := List (String × String)

/-- Modelled from the spec: the deterministic cache directory for a key, the
path `toolCache.cacheDir` returns and `toolCache.find` re-resolves. -/
def cachePath (tool version : String) : String :=
  "_tool/" ++ tool ++ "/" ++ version

/-- Modelled from the spec: `toolCache.find` — the cached directory when the
key is present, nothing (JS empty string, falsy) otherwise. -/
def findCache (st : CacheState) (tool version : String) : Option String :=
  if (tool, version) ∈ st then some (cachePath tool version) else none

/-- Modelled from the spec: `toolCache.cacheDir` registers the key. -/
def addCache (st : CacheState) (tool version : String) : CacheState :=
  (tool, version) :: st

/-- The external world of one invocation: platform, both release-listing
fetch outcomes, whether the archive download succeeds, and the filesystem
walk (`walkSync rootDir _ fileToFind`, as the list of matches in traversal
order). -/
structure Env where
  os : OSType
  listingFetch : Option (List (Option String))
  graphFetch : Option (List String)
  downloadOk : Bool
  walk : String → String → List String

/-- `findHelm` (`run.ts` lines 154-164): walk the cache directory for the
platform executable name; throw (here: `Except.error`) when nothing matches,
otherwise return the first match. -/
def findHelm (env : Env) (rootFolder : String) : Except String String :=
  match env.walk rootFolder (helmToolName ++ getExecutableExtension env.os) with
  | [] => .error ("Helm executable not found in path " ++ rootFolder)
  | f :: _ => .ok f

/-- Body of `downloadHelm` after the version has been resolved (`run.ts`
lines 88-108).  Returns the executable path, a flag recording whether the
download/extract steps ran, and the cache state after the call;
`Except.error` carries a thrown error's message. -/
def downloadHelmWith (env : Env) (st : CacheState) (v : String) :
    Except String (String × Bool × CacheState) :=
  match findCache st helmToolName v with
  | some cachedToolpath =>
    match findHelm env cachedToolpath with
    | .error e => .error e
    | .ok helmpath => .ok (helmpath, false, st)
  | none =>
    if env.downloadOk then
      match findHelm env (cachePath helmToolName v) with
      | .error e => .error e
      | .ok helmpath => .ok (helmpath, true, addCache st helmToolName v)
    else
      .error ("Failed to download Helm from location " ++ getHelmDownloadURL env.os v)

/-- `downloadHelm` (`run.ts` lines 86-109).  An empty `version` (JS falsy) is
first replaced by `getStableHelmVersion`. -/
def downloadHelm (env : Env) (st : CacheState) (version : String) :
    Except String (String × Bool × CacheState) :=
  downloadHelmWith env st
    (if version = "" then getStableHelmVersion env.listingFetch else version)

/-! ### Entry point (`run.ts` lines 166-202) -/

/-- Which discovery path a resolution took, when any. -/
inductive DiscoveryCall
  | globalLatest
  | familyLatest (type : String)
deriving DecidableEq

/-- The version-normalization block of `run` (`run.ts` lines 169-183),
instrumented with the discovery call it makes.  `legacy` is the
`HELM_INSTALLER_LEGACY_VERSIONING == 'true'` test. -/
def resolveVersion (env : Env) (legacy : Bool) (version : String) :
    String × Option DiscoveryCall :=
  if legacy then
    if strLower version = "latest" then
      (getStableHelmVersion env.listingFetch, some .globalLatest)
    else if !(strStartsWith (strLower version) "v") then
      ("v" ++ version, none)
    else (version, none)
  else
    if strLower version = "latest" ∨ version = LATEST_HELM3_VERSION then
      (getLatestHelmVersionFor "v3" env.graphFetch, some (.familyLatest "v3"))
    else if version = LATEST_HELM2_VERSION then
      (getLatestHelmVersionFor "v2" env.graphFetch, some (.familyLatest "v2"))
    else if !(strStartsWith (strLower version) "v") then
      ("v" ++ version, none)
    else (version, none)

/-- `run` (`run.ts` lines 166-200): resolve the input token, acquire the tool,
publish the executable path (the PATH mutation has a swallowed catch and no
bearing on the result).  Uncaught errors of `downloadHelm` propagate. -/
def run (env : Env) (st : CacheState) (legacy : Bool) (versionInput : String) :
    Except String (String × CacheState) :=
  match downloadHelm env st (resolveVersion env legacy versionInput).1 with
  | .error e => .error e
  | .ok (cachedPath, _, st') => .ok (cachedPath, st')

/-! ### Concrete worlds used in closed statements -/

/-- A world where every discovery fetch fails and the archive download also
fails. -/
def envFail : Env :=
  ⟨.Linux, none, none, false, fun _ _ => []⟩

/-- A world where downloads succeed but the extracted directory contains no
matching executable. -/
def envNoExe : Env :=
  ⟨.Linux, none, none, true, fun _ _ => []⟩

/-- The spec's end-to-end discovery scenario listing, downloads succeeding,
every directory holding one `helm` executable. -/
def envScenario : Env :=
  ⟨.Linux, none, some ["v3.5.3", "v3.6.0-rc.1", "v3.5.0"], true,
    fun r _ => [r ++ "/helm"]⟩

/-- A benign world: fetches succeed with empty listings, downloads succeed,
every directory holds one `helm` executable. -/
def envOk : Env :=
  ⟨.Linux, some [], some [], true, fun r _ => [r ++ "/helm"]⟩

/-! ### Helper lemmas -/

theorem leadsWith_head (p : Char) (rest l : List Char)
    (h : leadsWith (p :: rest) l = true) : leadsWith [p] l = true := by
  cases l with
  | nil => simp [leadsWith] at h
  | cons c cs =>
    simp only [leadsWith, Bool.and_eq_true] at h ⊢
    exact ⟨h.1, trivial⟩

theorem vAppend_data (s : String) : ("v" ++ s).data = 'v' :: s.data := by
  cases s
  rfl

theorem vAppend_ne_empty (s : String) : ("v" ++ s) ≠ "" := by
  intro h
  have hd : ("v" ++ s).data = ("" : String).data := congrArg String.data h
  rw [vAppend_data] at hd
  simp at hd

theorem strLower_vAppend_startsWith (s : String) :
    strStartsWith (strLower ("v" ++ s)) "v" = true := by
  simp only [strStartsWith, strLower, vAppend_data, List.map_cons]
  simp [leadsWith]

theorem isValid_lower_starts (tag type : String) (h : isValidVersion tag type = true) :
    strStartsWith (strLower tag) type = true ∧ strContains tag "rc" = false := by
  unfold isValidVersion at h
  by_cases h1 : strStartsWith (strLower tag) type = true
  · refine ⟨h1, ?_⟩
    rw [h1] at h
    simpa using h
  · simp [Bool.not_eq_true] at h1
    rw [h1] at h
    simp at h

theorem getLatest_cases (type : String) (l : List String) :
    getLatestHelmVersionFor type (some l) = getStableHelmVersionFor type ∨
    (getLatestHelmVersionFor type (some l) ∈ l ∧
      isValidVersion (getLatestHelmVersionFor type (some l)) type = true) := by
  have hdef : getLatestHelmVersionFor type (some l) =
      (match l.reverse.find? (fun r => isValidVersion r type) with
       | some tag => tag
       | none => getStableHelmVersionFor type) := rfl
  cases hf : l.reverse.find? (fun r => isValidVersion r type) with
  | none =>
    left
    rw [hdef, hf]
  | some tag =>
    have hres : getLatestHelmVersionFor type (some l) = tag := by rw [hdef, hf]
    right
    rw [hres]
    have hp := List.find?_some hf
    exact ⟨List.mem_reverse.mp (List.mem_of_find?_eq_some hf), by simpa using hp⟩

theorem stableStep_inv (acc : String × Semver) (e : Option String)
    (h1 : acc.1 = semverStr acc.2) (h2 : semKey seedSemver ≤ semKey acc.2) :
    (stableStep acc e).1 = semverStr (stableStep acc e).2 ∧
    semKey seedSemver ≤ semKey (stableStep acc e).2 := by
  cases e with
  | none => exact ⟨h1, h2⟩
  | some tag =>
    have hdef : stableStep acc (some tag) =
        (match semverClean tag with
         | none => acc
         | some cur =>
           if !(strContains (semverStr cur) "rc") && semverGtB cur acc.2 then
             (semverStr cur, cur)
           else acc) := rfl
    cases hc : semverClean tag with
    | none =>
      have hstep : stableStep acc (some tag) = acc := by rw [hdef, hc]
      rw [hstep]
      exact ⟨h1, h2⟩
    | some cur =>
      have hstep : stableStep acc (some tag) =
          (if !(strContains (semverStr cur) "rc") && semverGtB cur acc.2 then
            (semverStr cur, cur)
          else acc) := by rw [hdef, hc]
      rw [hstep]
      by_cases hg : (!(strContains (semverStr cur) "rc") && semverGtB cur acc.2) = true
      · rw [if_pos hg]
        refine ⟨rfl, ?_⟩
        simp only [Bool.and_eq_true] at hg
        have hlt : semKey acc.2 < semKey cur := of_decide_eq_true hg.2
        exact h2.trans hlt.le
      · rw [if_neg hg]
        exact ⟨h1, h2⟩

theorem stable_fold_inv (arr : List (Option String)) (acc : String × Semver)
    (h1 : acc.1 = semverStr acc.2) (h2 : semKey seedSemver ≤ semKey acc.2) :
    (arr.foldl stableStep acc).1 = semverStr (arr.foldl stableStep acc).2 ∧
    semKey seedSemver ≤ semKey (arr.foldl stableStep acc).2 := by
  induction arr generalizing acc with
  | nil => exact ⟨h1, h2⟩
  | cons e rest ih =>
    simp only [List.foldl_cons]
    have hstep := stableStep_inv acc e h1 h2
    exact ih (stableStep acc e) hstep.1 hstep.2

theorem getStableHelmVersion_spec (fetch : Option (List (Option String))) :
    ∃ v : Semver, getStableHelmVersion fetch = "v" ++ semverStr v ∧
      semKey seedSemver ≤ semKey v := by
  cases fetch with
  | none => exact ⟨seedSemver, rfl, le_refl _⟩
  | some arr =>
    have h := stable_fold_inv arr (semverStr seedSemver, seedSemver) rfl (le_refl _)
    refine ⟨(arr.foldl stableStep (semverStr seedSemver, seedSemver)).2, ?_, h.2⟩
    show "v" ++ (arr.foldl stableStep (semverStr seedSemver, seedSemver)).1 = _
    rw [h.1]

theorem getStable_ne_empty (fetch : Option (List (Option String))) :
    getStableHelmVersion fetch ≠ "" := by
  obtain ⟨v, hv, -⟩ := getStableHelmVersion_spec fetch
  rw [hv]
  exact vAppend_ne_empty _

theorem getStable_starts_v (fetch : Option (List (Option String))) :
    strStartsWith (strLower (getStableHelmVersion fetch)) "v" = true := by
  obtain ⟨v, hv, -⟩ := getStableHelmVersion_spec fetch
  rw [hv]
  exact strLower_vAppend_startsWith _

theorem vAppend_startsWith (s : String) : strStartsWith ("v" ++ s) "v" = true := by
  simp only [strStartsWith, vAppend_data]
  simp [leadsWith]

theorem startsWith_family_v (s type : String) (hty : type = "v2" ∨ type = "v3")
    (h : strStartsWith s type = true) : strStartsWith s "v" = true := by
  rcases hty with h2 | h3
  · subst h2; exact leadsWith_head 'v' ['2'] s.data h
  · subst h3; exact leadsWith_head 'v' ['3'] s.data h

theorem getLatest_lower_starts_v (type : String) (hty : type = "v2" ∨ type = "v3")
    (fetch : Option (List String)) :
    strStartsWith (strLower (getLatestHelmVersionFor type fetch)) "v" = true := by
  cases fetch with
  | none =>
    show strStartsWith (strLower (getStableHelmVersionFor type)) "v" = true
    rcases hty with h | h <;> subst h <;> decide
  | some l =>
    rcases getLatest_cases type l with h | h
    · rw [h]
      rcases hty with h' | h' <;> subst h' <;> decide
    · exact startsWith_family_v _ _ hty (isValid_lower_starts _ _ h.2).1

theorem findCache_addCache (st : CacheState) (t v : String) :
    findCache (addCache st t v) t v = some (cachePath t v) := by
  unfold findCache addCache
  rw [if_pos (List.mem_cons_self _ _)]

theorem downloadHelmWith_hit_ok (env : Env) (st : CacheState) (v p f : String)
    (h : findCache st helmToolName v = some p) (hf : findHelm env p = .ok f) :
    downloadHelmWith env st v = .ok (f, false, st) := by
  unfold downloadHelmWith
  rw [h]
  show (match findHelm env p with
        | Except.error e => Except.error e
        | Except.ok helmpath => Except.ok (helmpath, false, st)) = Except.ok (f, false, st)
  rw [hf]

theorem downloadHelmWith_hit_err (env : Env) (st : CacheState) (v p e : String)
    (h : findCache st helmToolName v = some p) (hf : findHelm env p = .error e) :
    downloadHelmWith env st v = .error e := by
  unfold downloadHelmWith
  rw [h]
  show (match findHelm env p with
        | Except.error e => Except.error e
        | Except.ok helmpath => Except.ok (helmpath, false, st)) = Except.error e
  rw [hf]

theorem downloadHelmWith_dl_ok (env : Env) (st : CacheState) (v f : String)
    (h : findCache st helmToolName v = none) (hdl : env.downloadOk = true)
    (hf : findHelm env (cachePath helmToolName v) = .ok f) :
    downloadHelmWith env st v = .ok (f, true, addCache st helmToolName v) := by
  unfold downloadHelmWith
  rw [h, if_pos hdl, hf]

theorem downloadHelmWith_dl_err (env : Env) (st : CacheState) (v e : String)
    (h : findCache st helmToolName v = none) (hdl : env.downloadOk = true)
    (hf : findHelm env (cachePath helmToolName v) = .error e) :
    downloadHelmWith env st v = .error e := by
  unfold downloadHelmWith
  rw [h, if_pos hdl, hf]

theorem downloadHelmWith_missFail (env : Env) (st : CacheState) (v : String)
    (h : findCache st helmToolName v = none) (hdl : env.downloadOk = false) :
    downloadHelmWith env st v =
      .error ("Failed to download Helm from location " ++ getHelmDownloadURL env.os v) := by
  unfold downloadHelmWith
  rw [h, hdl]
  simp

theorem downloadHelmWith_idem (env : Env) (st : CacheState) (v path : String)
    (dl : Bool) (st' : CacheState)
    (h : downloadHelmWith env st v = .ok (path, dl, st')) :
    downloadHelmWith env st' v = .ok (path, false, st') := by
  cases hfc : findCache st helmToolName v with
  | some p =>
    cases hfh : findHelm env p with
    | error e =>
      rw [downloadHelmWith_hit_err env st v p e hfc hfh] at h
      simp at h
    | ok f =>
      rw [downloadHelmWith_hit_ok env st v p f hfc hfh] at h
      simp only [Except.ok.injEq, Prod.mk.injEq] at h
      obtain ⟨hf, -, hst⟩ := h
      subst hf
      subst hst
      exact downloadHelmWith_hit_ok env st v p f hfc hfh
  | none =>
    cases hdl : env.downloadOk with
    | false =>
      rw [downloadHelmWith_missFail env st v hfc hdl] at h
      simp at h
    | true =>
      cases hfh : findHelm env (cachePath helmToolName v) with
      | error e =>
        rw [downloadHelmWith_dl_err env st v e hfc hdl hfh] at h
        simp at h
      | ok f =>
        rw [downloadHelmWith_dl_ok env st v f hfc hdl hfh] at h
        simp only [Except.ok.injEq, Prod.mk.injEq] at h
        obtain ⟨hf, -, hst⟩ := h
        subst hf
        subst hst
        exact downloadHelmWith_hit_ok env _ v _ f
          (findCache_addCache st helmToolName v) hfh

/-! ### Claims -/

/-- C2: family-scoped discovery reverses the fetched release list and returns
the first entry after reversal whose tag is valid for the family; in
particular, for the listing `["v3.5.3", "v3.6.0-rc.1", "v3.5.0"]` with
non-legacy input `"latest"`, the resolved version is `"v3.5.0"` (the earliest
matching stable release in the window, not the latest). -/
theorem family_discovery_reversal_first :
    (∀ (type : String) (l : List String),
       getLatestHelmVersionFor type (some l) =
         ((l.reverse.find? (fun r => isValidVersion r type)).getD
           (getStableHelmVersionFor type))) ∧
    getLatestHelmVersionFor "v3" (some ["v3.5.3", "v3.6.0-rc.1", "v3.5.0"]) = "v3.5.0" ∧
    (resolveVersion envScenario false "latest").1 = "v3.5.0" := by
  refine ⟨?_, ?_, ?_⟩
  · intro type l
    have hdef : getLatestHelmVersionFor type (some l) =
        (match l.reverse.find? (fun r => isValidVersion r type) with
         | some tag => tag
         | none => getStableHelmVersionFor type) := rfl
    rw [hdef]
    cases l.reverse.find? (fun r => isValidVersion r type) <;> rfl
  · rfl
  · rfl

/-- C4: for every release listing (fetch failure, empty or fully-malformed
included), global discovery returns `"v"` followed by the cleaned form of a
version whose semantic-version precedence is at least the hardcoded seed
`stableHelmVersion`, and the returned string starts with `"v"`. -/
theorem global_discovery_ge_seed (fetch : Option (List (Option String))) :
    ∃ v : Semver, getStableHelmVersion fetch = "v" ++ semverStr v ∧
      semKey seedSemver ≤ semKey v ∧
      strStartsWith (getStableHelmVersion fetch) "v" = true := by
  obtain ⟨v, hv, hk⟩ := getStableHelmVersion_spec fetch
  refine ⟨v, hv, hk, ?_⟩
  rw [hv]
  exact vAppend_startsWith _

/-- C9: calling `downloadHelm` with the empty version string does not fail on
the emptiness: it behaves exactly as the call with the version resolved by
global latest-stable discovery, and that resolved version is nonempty and
`"v"`-prefixed, so the empty string is never used as a cache key or in a
download URL. -/
theorem downloadHelm_empty_version (env : Env) (st : CacheState) :
    downloadHelm env st "" = downloadHelm env st (getStableHelmVersion env.listingFetch) ∧
    getStableHelmVersion env.listingFetch ≠ "" ∧
    strStartsWith (getStableHelmVersion env.listingFetch) "v" = true := by
  refine ⟨?_, getStable_ne_empty _, ?_⟩
  · unfold downloadHelm
    rw [if_pos rfl, if_neg (getStable_ne_empty env.listingFetch)]
  · obtain ⟨v, hv, -⟩ := getStableHelmVersion_spec env.listingFetch
    rw [hv]
    exact vAppend_startsWith _

/-- C10: the pre-release exclusion is case-sensitive: the tag
`"v3.9.9-RC.1"` contains `"RC"` but not `"rc"`, starts with the `"v3"`
family, and family-scoped discovery accepts and selects it as a valid stable
release — while the family-check itself is case-insensitive (it also accepts
`"V3.1.0"`). -/
theorem rc_exclusion_case_sensitive :
    isValidVersion "v3.9.9-RC.1" "v3" = true ∧
    strContains "v3.9.9-RC.1" "RC" = true ∧
    strContains "v3.9.9-RC.1" "rc" = false ∧
    getLatestHelmVersionFor "v3" (some ["v3.9.9-RC.1"]) = "v3.9.9-RC.1" ∧
    isValidVersion "V3.1.0" "v3" = true := by
  refine ⟨rfl, rfl, rfl, rfl, rfl⟩

/-- C6: in legacy mode, a token not starting with "v" (case-insensitive) and
not equal (case-insensitively) to "latest" resolves to exactly `"v" ++ token`;
a token already starting with "v" (case-insensitive) passes through
unchanged. -/
theorem legacy_normalization (env : Env) (token : String) :
    (strStartsWith (strLower token) "v" = false → strLower token ≠ "latest" →
      (resolveVersion env true token).1 = "v" ++ token) ∧
    (strStartsWith (strLower token) "v" = true →
      (resolveVersion env true token).1 = token) := by
  constructor
  · intro h1 h2
    simp [resolveVersion, h1, h2]
  · intro h
    have h2 : strLower token ≠ "latest" := by
      intro he
      rw [he] at h
      exact absurd h (by decide)
    simp [resolveVersion, h, h2]

/-- C6 witness: `"2.17.0"` becomes `"v2.17.0"`, `"v3.5.3"` passes through. -/
theorem legacy_normalization_witness :
    (resolveVersion envOk true "2.17.0").1 = "v" ++ "2.17.0" ∧
    (resolveVersion envOk true "v3.5.3").1 = "v3.5.3" :=
  ⟨(legacy_normalization envOk "2.17.0").1 (by decide) (by decide),
   (legacy_normalization envOk "v3.5.3").2 (by decide)⟩

/-- C5 counterexample: the non-legacy token `"V1.0.0"` starts with "v" only
case-insensitively, passes through unchanged, and the resolved result does
not start with the literal `"v"` — refuting "the resolved result always
starts with 'v'" read case-sensitively. -/
theorem resolve_startswith_v_counterexample :
    (resolveVersion envOk false "V1.0.0").1 = "V1.0.0" ∧
    strStartsWith (resolveVersion envOk false "V1.0.0").1 "v" = false :=
  ⟨rfl, rfl⟩

/-- C5 (amended): in non-legacy mode, a token equal to "latest"
(case-insensitive) or exactly "3.*" triggers v3-family discovery, a token
exactly "2.*" triggers v2-family discovery, any other token not starting
with "v" (case-insensitive) is prefixed with "v", and the resolved result
always starts with "v" case-insensitively (i.e. with "v" or "V" — not always
with the literal "v", see the counterexample). -/
theorem resolve_family_dispatch (env : Env) (token : String) :
    ((strLower token = "latest" ∨ token = LATEST_HELM3_VERSION) →
      resolveVersion env false token =
        (getLatestHelmVersionFor "v3" env.graphFetch, some (.familyLatest "v3"))) ∧
    (token = LATEST_HELM2_VERSION →
      resolveVersion env false token =
        (getLatestHelmVersionFor "v2" env.graphFetch, some (.familyLatest "v2"))) ∧
    (¬(strLower token = "latest" ∨ token = LATEST_HELM3_VERSION) →
      token ≠ LATEST_HELM2_VERSION →
      strStartsWith (strLower token) "v" = false →
      resolveVersion env false token = ("v" ++ token, none)) ∧
    strStartsWith (strLower (resolveVersion env false token).1) "v" = true := by
  refine ⟨?_, ?_, ?_, ?_⟩
  · intro h1
    simp [resolveVersion, h1]
  · intro h2
    subst h2
    have hno : ¬(strLower LATEST_HELM2_VERSION = "latest" ∨
        LATEST_HELM2_VERSION = LATEST_HELM3_VERSION) := by decide
    simp [resolveVersion, hno]
  · intro h1 h2 h3
    simp [resolveVersion, h1, h2, h3]
  · by_cases h1 : strLower token = "latest" ∨ token = LATEST_HELM3_VERSION
    · have hr : resolveVersion env false token =
          (getLatestHelmVersionFor "v3" env.graphFetch, some (.familyLatest "v3")) := by
        simp [resolveVersion, h1]
      rw [hr]
      exact getLatest_lower_starts_v "v3" (Or.inr rfl) env.graphFetch
    · by_cases h2 : token = LATEST_HELM2_VERSION
      · subst h2
        have hr : resolveVersion env false LATEST_HELM2_VERSION =
            (getLatestHelmVersionFor "v2" env.graphFetch, some (.familyLatest "v2")) := by
          simp [resolveVersion, h1]
        rw [hr]
        exact getLatest_lower_starts_v "v2" (Or.inl rfl) env.graphFetch
      · by_cases h3 : strStartsWith (strLower token) "v" = true
        · have hr : resolveVersion env false token = (token, none) := by
            simp [resolveVersion, h1, h2, h3]
          rw [hr]
          exact h3
        · simp only [Bool.not_eq_true] at h3
          have hr : resolveVersion env false token = ("v" ++ token, none) := by
            simp [resolveVersion, h1, h2, h3]
          rw [hr]
          exact strLower_vAppend_startsWith token

/-- C5 witness: `"3.*"` dispatches to v3-family discovery; the prefixed token
`"1.0.0"` resolves to a result starting with "v". -/
theorem resolve_family_dispatch_witness :
    resolveVersion envScenario false "3.*" =
      (getLatestHelmVersionFor "v3" envScenario.graphFetch, some (.familyLatest "v3")) ∧
    resolveVersion envOk false "1.0.0" = ("v" ++ "1.0.0", none) ∧
    strStartsWith (strLower (resolveVersion envOk false "V1.0.0").1) "v" = true :=
  ⟨(resolve_family_dispatch envScenario "3.*").1 (Or.inr rfl),
   (resolve_family_dispatch envOk "1.0.0").2.2.1 (by decide) (by decide) (by decide),
   (resolve_family_dispatch envOk "V1.0.0").2.2.2⟩

/-- C1: the version resolver is a total function (it returns a `String`, it
has no error outcome); when both discovery channels fail (`none` fetches),
every token in every mode still resolves, degrading to the hardcoded
per-family or global default whenever a discovery path was taken, and to the
plain normalized token otherwise. -/
theorem resolver_never_raises (env : Env) (legacy : Bool) (token : String)
    (hl : env.listingFetch = none) (hg : env.graphFetch = none) :
    ((resolveVersion env legacy token).2 = some .globalLatest →
      (resolveVersion env legacy token).1 = stableHelmVersion) ∧
    ((resolveVersion env legacy token).2 = some (.familyLatest "v3") →
      (resolveVersion env legacy token).1 = stableHelm3Version) ∧
    ((resolveVersion env legacy token).2 = some (.familyLatest "v2") →
      (resolveVersion env legacy token).1 = stableHelm2Version) ∧
    ((resolveVersion env legacy token).2 = none →
      (resolveVersion env legacy token).1 = "v" ++ token ∨
      (resolveVersion env legacy token).1 = token) := by
  cases legacy with
  | true =>
    by_cases h1 : strLower token = "latest"
    · have hr : resolveVersion env true token = (stableHelmVersion, some .globalLatest) := by
        simp [resolveVersion, h1, hl, getStableHelmVersion]
      rw [hr]
      exact ⟨fun _ => rfl, fun hc => by simp at hc, fun hc => by simp at hc,
        fun hc => by simp at hc⟩
    · by_cases h2 : strStartsWith (strLower token) "v" = true
      · have hr : resolveVersion env true token = (token, none) := by
          simp [resolveVersion, h1, h2]
        rw [hr]
        exact ⟨fun hc => by simp at hc, fun hc => by simp at hc, fun hc => by simp at hc,
          fun _ => Or.inr rfl⟩
      · simp only [Bool.not_eq_true] at h2
        have hr : resolveVersion env true token = ("v" ++ token, none) := by
          simp [resolveVersion, h1, h2]
        rw [hr]
        exact ⟨fun hc => by simp at hc, fun hc => by simp at hc, fun hc => by simp at hc,
          fun _ => Or.inl rfl⟩
  | false =>
    by_cases h1 : strLower token = "latest" ∨ token = LATEST_HELM3_VERSION
    · have hr : resolveVersion env false token =
          (stableHelm3Version, some (.familyLatest "v3")) := by
        simp [resolveVersion, h1, hg, getLatestHelmVersionFor, getStableHelmVersionFor]
      rw [hr]
      refine ⟨fun hc => by simp at hc, fun _ => rfl, fun hc => ?_, fun hc => by simp at hc⟩
      exact absurd hc (by decide)
    · by_cases h2 : token = LATEST_HELM2_VERSION
      · subst h2
        have hr : resolveVersion env false LATEST_HELM2_VERSION =
            (stableHelm2Version, some (.familyLatest "v2")) := by
          have hno : ¬(strLower LATEST_HELM2_VERSION = "latest" ∨
              LATEST_HELM2_VERSION = LATEST_HELM3_VERSION) := by decide
          simp [resolveVersion, hno, hg, getLatestHelmVersionFor, getStableHelmVersionFor]
        rw [hr]
        refine ⟨fun hc => by simp at hc, fun hc => ?_, fun _ => rfl, fun hc => by simp at hc⟩
        exact absurd hc (by decide)
      · by_cases h3 : strStartsWith (strLower token) "v" = true
        · have hr : resolveVersion env false token = (token, none) := by
            simp [resolveVersion, h1, h2, h3]
          rw [hr]
          exact ⟨fun hc => by simp at hc, fun hc => by simp at hc, fun hc => by simp at hc,
            fun _ => Or.inr rfl⟩
        · simp only [Bool.not_eq_true] at h3
          have hr : resolveVersion env false token = ("v" ++ token, none) := by
            simp [resolveVersion, h1, h2, h3]
          rw [hr]
          exact ⟨fun hc => by simp at hc, fun hc => by simp at hc, fun hc => by simp at hc,
            fun _ => Or.inl rfl⟩

/-- C1 witness: with both discovery channels failing, "latest" resolves to
the v3-family default in non-legacy mode and to the global default in legacy
mode. -/
theorem resolver_never_raises_witness :
    (resolveVersion envFail false "latest").1 = stableHelm3Version ∧
    (resolveVersion envFail true "latest").1 = stableHelmVersion :=
  ⟨(resolver_never_raises envFail false "latest" rfl rfl).2.1 rfl,
   (resolver_never_raises envFail true "latest" rfl rfl).1 rfl⟩

/-- C7: family-scoped discovery excludes every tag containing the substring
"rc" and accepts only tags whose lowering starts with the family type; every
selected (non-default) result is a member of the listing satisfying both. -/
theorem family_discovery_excludes_rc :
    (∀ version type, strContains version "rc" = true → isValidVersion version type = false) ∧
    (∀ version type, isValidVersion version type = true →
       strStartsWith (strLower version) type = true ∧ strContains version "rc" = false) ∧
    (∀ (type : String) (l : List String),
       getLatestHelmVersionFor type (some l) = getStableHelmVersionFor type ∨
       (getLatestHelmVersionFor type (some l) ∈ l ∧
        strStartsWith (strLower (getLatestHelmVersionFor type (some l))) type = true ∧
        strContains (getLatestHelmVersionFor type (some l)) "rc" = false)) := by
  refine ⟨?_, ?_, ?_⟩
  · intro version type h
    unfold isValidVersion
    simp [h]
  · exact fun version type h => isValid_lower_starts version type h
  · intro type l
    rcases getLatest_cases type l with h | h
    · exact Or.inl h
    · exact Or.inr ⟨h.1, (isValid_lower_starts _ _ h.2).1, (isValid_lower_starts _ _ h.2).2⟩

/-- C7 witness: the rc-tag `"v3.6.0-rc.1"` is rejected; the accepted tag
`"V3.1.0"` lowers to a "v3"-led string and holds no "rc". -/
theorem family_discovery_excludes_rc_witness :
    isValidVersion "v3.6.0-rc.1" "v3" = false ∧
    (strStartsWith (strLower "V3.1.0") "v3" = true ∧ strContains "V3.1.0" "rc" = false) :=
  ⟨family_discovery_excludes_rc.1 "v3.6.0-rc.1" "v3" rfl,
   family_discovery_excludes_rc.2.1 "V3.1.0" "v3" rfl⟩

/-- C3: acquisition is idempotent over the tool cache: when a first
`downloadHelm` call succeeds, a second call with the same version on the
resulting cache state performs no download (`false` flag), returns the same
executable path and leaves the cache unchanged. -/
theorem downloadHelm_idempotent (env : Env) (st : CacheState) (version path : String)
    (dl : Bool) (st' : CacheState)
    (h : downloadHelm env st version = .ok (path, dl, st')) :
    downloadHelm env st' version = .ok (path, false, st') := by
  unfold downloadHelm at h ⊢
  exact downloadHelmWith_idem env st _ path dl st' h

/-- C3 witness: a first call downloads and caches `(helm, v3.5.3)`, the
second call hits the cache and returns the same path. -/
theorem downloadHelm_idempotent_witness :
    downloadHelm envOk [] "v3.5.3" =
      .ok ("_tool/helm/v3.5.3" ++ "/helm", true, [("helm", "v3.5.3")]) ∧
    downloadHelm envOk [("helm", "v3.5.3")] "v3.5.3" =
      .ok ("_tool/helm/v3.5.3" ++ "/helm", false, [("helm", "v3.5.3")]) :=
  ⟨rfl, downloadHelm_idempotent envOk [] "v3.5.3" _ _ _ rfl⟩

/-- C8: acquisition failures are fatal and carry context: a failed archive
transfer raises an error wrapping the download URL; an empty executable
search raises a not-found error wrapping the searched directory; both
propagate unchanged through the entry point `run`. -/
theorem acquisition_failures_fatal :
    (∀ (env : Env) (st : CacheState) (v : String), v ≠ "" →
       findCache st helmToolName v = none → env.downloadOk = false →
       downloadHelm env st v =
         .error ("Failed to download Helm from location " ++ getHelmDownloadURL env.os v)) ∧
    (∀ (env : Env) (st : CacheState) (v : String), v ≠ "" →
       findCache st helmToolName v = none → env.downloadOk = true →
       env.walk (cachePath helmToolName v) (helmToolName ++ getExecutableExtension env.os) = [] →
       downloadHelm env st v =
         .error ("Helm executable not found in path " ++ cachePath helmToolName v)) ∧
    (∀ (env : Env) (st : CacheState) (legacy : Bool) (token e : String),
       downloadHelm env st (resolveVersion env legacy token).1 = .error e →
       run env st legacy token = .error e) := by
  refine ⟨?_, ?_, ?_⟩
  · intro env st v hv hfc hdl
    unfold downloadHelm
    rw [if_neg hv]
    exact downloadHelmWith_missFail env st v hfc hdl
  · intro env st v hv hfc hdl hw
    unfold downloadHelm
    rw [if_neg hv]
    have hfh : findHelm env (cachePath helmToolName v) =
        .error ("Helm executable not found in path " ++ cachePath helmToolName v) := by
      unfold findHelm
      rw [hw]
    exact downloadHelmWith_dl_err env st v _ hfc hdl hfh
  · intro env st legacy token e h
    unfold run
    rw [h]

/-- C8 witness: a failed download and a missing executable each produce their
contextual fatal error, and the download error surfaces from `run`. -/
theorem acquisition_failures_fatal_witness :
    downloadHelm envFail [] "v3.5.3" =
      .error ("Failed to download Helm from location " ++
        getHelmDownloadURL envFail.os "v3.5.3") ∧
    downloadHelm envNoExe [] "v3.5.3" =
      .error ("Helm executable not found in path " ++ cachePath helmToolName "v3.5.3") ∧
    run envFail [] false "v3.5.3" =
      .error ("Failed to download Helm from location " ++
        getHelmDownloadURL envFail.os "v3.5.3") :=
  ⟨acquisition_failures_fatal.1 envFail [] "v3.5.3" (by decide) rfl rfl,
   acquisition_failures_fatal.2.1 envNoExe [] "v3.5.3" (by decide) rfl rfl rfl,
   acquisition_failures_fatal.2.2 envFail [] false "v3.5.3" _
     (acquisition_failures_fatal.1 envFail [] "v3.5.3" (by decide) rfl rfl)⟩

end SetupHelm
